import Mathlib

/-!
Verification of the fuel-price parser (`fuelprice.py`).

The development shallowly embeds the program:

* Python strings are `List Char` / `String` over their ASCII fragment; the
  case-mapping functions below mirror CPython's behaviour on the basic-latin
  range (following the `Only works on basic latin letters` convention of
  `Char.toUpper` / `Char.toLower`) and are the identity elsewhere.
* The XML DOM produced by `xml.dom.minidom.parseString` is the tree type
  `Node`; attributes, comments and processing instructions play no role in
  the program and are not modelled.  `getElems` is
  `Document.getElementsByTagName`, which lists matching descendant elements
  in document (preorder) order.
* The class attribute `FuelPrice._publication_date` is threaded explicitly:
  `parse_data` takes the current value and returns the new one next to the
  parse result.
* Python exceptions are the error monad `Except PyErr`; `PyErr.indexError`
  is the `IndexError` raised by `elements[0]` on an empty list and
  `PyErr.attributeError` the `AttributeError` raised by reading `.tagName`
  or `.nodeValue` off a node that lacks it (including `None`).
-/

namespace FuelPrice

/-! ### ASCII string primitives (Python `str.replace`, slicing, `str.title`) -/

/-- Lower-case an ASCII letter, as Python's `str.lower` does per character on
the basic-latin range (identity on every other character). -/
def lowA (c : Char) : Char :=
  if 65 ≤ c.toNat ∧ c.toNat ≤ 90 then Char.ofNat (c.toNat + 32) else c

/-- Upper-case an ASCII letter, as Python's `str.upper`/titlecase does per
character on the basic-latin range (identity on every other character). -/
def upA (c : Char) : Char :=
  if 97 ≤ c.toNat ∧ c.toNat ≤ 122 then Char.ofNat (c.toNat - 32) else c

/-- Is the character cased (`Py_UNICODE_ISCASED`), restricted to ASCII: the
letters `A`-`Z` and `a`-`z`.  Digits and punctuation are not cased. -/
def isCasedA (c : Char) : Bool :=
  decide ((65 ≤ c.toNat ∧ c.toNat ≤ 90) ∨ (97 ≤ c.toNat ∧ c.toNat ≤ 122))

/-- CPython's `str.title` loop (`do_title` in `unicodeobject.c`): a character
is title-cased when the preceding character is not cased, and lower-cased
otherwise; the flag is computed from the original character. -/
def titleAux : Bool → List Char → List Char
  | _, [] => []
  | prev, c :: cs => (if prev then lowA c else upA c) :: titleAux (isCasedA c) cs

/-- Python's `str.title` (ASCII model). -/
def pyTitle (s : List Char) : List Char := titleAux false s

/-- One pass of Python's `str.replace(old, new)`: scan left to right and
replace non-overlapping occurrences of `old`.  The `Nat` argument is
recursion fuel; `s.length` suffices because every step consumes at least one
character of `s` whenever `old` is nonempty (it always is in this program). -/
def replFuel (old new : List Char) : Nat → List Char → List Char
  | _, [] => []
  | 0, s => s
  | k + 1, c :: cs =>
    if old.isPrefixOf (c :: cs) then new ++ replFuel old new k ((c :: cs).drop old.length)
    else c :: replFuel old new k cs

/-- Python's `str.replace(old, new)` for nonempty `old`. -/
def pyReplace (old new s : List Char) : List Char := replFuel old new s.length s

/-- Does `old` occur as a contiguous substring of `s`?  (Decidable companion
of `pyReplace`: if `hasOccur old s = false` the replacement is a no-op.) -/
def hasOccur (old : List Char) : List Char → Bool
  | [] => old.isPrefixOf []
  | c :: cs => old.isPrefixOf (c :: cs) || hasOccur old cs

/-- The pattern `" S "` of `fuel['type'].replace(' S ', ' ')`. -/
def sSpace : List Char := [' ', 'S', ' ']

/-- The pattern `" EVO"` of `.replace(' EVO', '')`. -/
def evo : List Char := [' ', 'E', 'V', 'O']

/-- The suffix `" S"` tested by `fueltype.endswith(' S')`. -/
def sSuffix : List Char := [' ', 'S']

/-- The conditional suffix strip: `if fueltype.endswith(' S'): fueltype = fueltype[:-2]`. -/
def stripTrailS (s : List Char) : List Char :=
  if sSuffix.isSuffixOf s then s.take (s.length - 2) else s

/-- The full fuel-type cleanup of `parse_data` (lines 82-86 of the source):
`fuel['type'].replace(' S ', ' ').replace(' EVO', '')`, strip a trailing
`' S'`, then `.title()`. -/
def cleanList (s : List Char) : List Char :=
  pyTitle (stripTrailS (pyReplace evo [] (pyReplace sSpace [' '] s)))

/-- The fuel-type cleanup on `String`. -/
def cleanType (s : String) : String := String.mk (cleanList s.data)

/-! ### DOM model (`xml.dom.minidom`) -/

/-- A DOM node: an element with a tag name and child nodes, or a text node. -/
inductive Node where
  | element (tag : String) (children : List Node)
  | text (data : String)

/-- `node.childNodes`. -/
def Node.childNodes : Node → List Node
  | .element _ cs => cs
  | .text _ => []

/-- `node.firstChild`; `none` is Python's `None`. -/
def Node.firstChild : Node → Option Node
  | .element _ cs => cs.head?
  | .text _ => none

/-- `node.nodeValue`: the character data of a text node; `None` (here `none`)
for an element node. -/
def Node.nodeValue : Node → Option String
  | .text s => some s
  | .element _ _ => none

/-- `node.tagName`, partially: elements have one, text nodes do not. -/
def Node.tag? : Node → Option String
  | .element t _ => some t
  | .text _ => none

/-- Character data of a node's first child when that child is a text node
(the "text content" read by `node.firstChild.nodeValue` on schema input). -/
def Node.firstText? : Node → Option String
  | .element _ (.text s :: _) => some s
  | _ => none

mutual

/-- `document.getElementsByTagName(name)`: every descendant element carrying
`name`, in document (preorder) order.  The document is represented by its
root element, which minidom also includes in the search. -/
def getElems (name : String) : Node → List Node
  | .text _ => []
  | .element t cs =>
    (if t = name then [Node.element t cs] else []) ++ getElemsL name cs

/-- `getElems` mapped over a list of siblings, keeping document order. -/
def getElemsL (name : String) : List Node → List Node
  | [] => []
  | c :: cs => getElems name c ++ getElemsL name cs

end

/-! ### Python dictionaries (association lists with insertion order) -/

/-- A parsed fuel record: Python dict from tag names to `node.firstChild.nodeValue`
(which is `None`, i.e. `none`, when that first child is not a text node). -/
abbrev Dict := List (String × Option String)

/-- Dictionary lookup. -/
def dictGet : Dict → String → Option (Option String)
  | [], _ => none
  | (k', v) :: d, k => if k' = k then some v else dictGet d k

/-- Dictionary assignment `d[k] = v`: overwrite in place if the key exists,
else append (Python dicts preserve insertion order). -/
def dictSet : Dict → String → Option String → Dict
  | [], k, v => [(k, v)]
  | (k', v') :: d, k, v => if k' = k then (k, v) :: d else (k', v') :: dictSet d k v

/-- The key list of a dictionary, in insertion order. -/
def dictKeys : Dict → List String
  | [] => []
  | (k, _) :: d => k :: dictKeys d

/-! ### The parser (`FuelPrice.parse_data`) -/

/-- Python exceptions that `parse_data` can raise: `IndexError` from
`elements[0]` on an empty result, `AttributeError` from `.tagName` on a text
node or `.nodeValue`/`.replace` on `None`. -/
inductive PyErr where
  | indexError
  | attributeError
deriving DecidableEq

/-- One iteration of `for node in element.childNodes`: read `node.tagName`
(an `AttributeError` on a text node), skip `image`/`image2`, otherwise store
`node.firstChild.nodeValue` (an `AttributeError` when `firstChild` is `None`). -/
def parseChild (fuel : Dict) : Node → Except PyErr Dict
  | .text _ => .error .attributeError
  | .element tg cs =>
    if tg = "image" ∨ tg = "image2" then .ok fuel
    else
      match cs.head? with
      | none => .error .attributeError
      | some fc => .ok (dictSet fuel tg fc.nodeValue)

/-- The child loop of `parse_data`, threading the `fuel` dictionary. -/
def foldChildren (fuel : Dict) : List Node → Except PyErr Dict
  | [] => .ok fuel
  | n :: ns =>
    match parseChild fuel n with
    | .error e => .error e
    | .ok fuel' => foldChildren fuel' ns

/-- The cleanup `if 'type' in fuel: ...` of `parse_data`: a missing key is
left alone, a `None` value makes `.replace` raise `AttributeError`, and a
string value is rewritten with `cleanType`. -/
def cleanupType (fuel : Dict) : Except PyErr Dict :=
  match dictGet fuel "type" with
  | none => .ok fuel
  | some none => .error .attributeError
  | some (some s) => .ok (dictSet fuel "type" (some (cleanType s)))

/-- One iteration of `for element in elements`: build the record from the
child nodes, then clean the `type` field. -/
def parseItem (item : Node) : Except PyErr Dict :=
  match foldChildren [] item.childNodes with
  | .error e => .error e
  | .ok d => cleanupType d

/-- The item loop of `parse_data`, appending records in document order. -/
def parseItems : List Node → Except PyErr (List Dict)
  | [] => .ok []
  | it :: its =>
    match parseItem it with
    | .error e => .error e
    | .ok d =>
      match parseItems its with
      | .error e => .error e
      | .ok ds => .ok (d :: ds)

/-- `FuelPrice.parse_data(data)` on an already-parsed document, with the
class attribute `_publication_date` threaded as explicit state.  `elements[0]`
raises `IndexError` when no `update_date` element exists; the assignment
`cls._publication_date = elements[0].firstChild.nodeValue` happens before the
item loop, so the state is updated even when a later item raises. -/
def parse_data (st : Option String) (doc : Node) :
    Option String × Except PyErr (List Dict) :=
  match (getElems "update_date" doc).head? with
  | none => (st, .error .indexError)
  | some upd =>
    match upd.firstChild with
    | none => (st, .error .attributeError)
    | some fc => (fc.nodeValue, parseItems (getElems "item" doc))

/-- `FuelPrice.get_date()`: return the stored `_publication_date`. -/
def get_date (st : Option String) : Option String := st

/-! ### Fetch pipeline (`get_fuel_data`, `get_fuel_prices`) -/

/-- A `requests` response: status code and body (bytes as a string). -/
structure HttpResponse where
  status_code : Nat
  content : String

/-- `FuelPrice.URL`. -/
def URL : String := "https://www.bangchak.co.th/api/oilprice"

/-- `FuelPrice.get_fuel_data()`: the body on a 200 response, else `None`
plus the printed diagnostic line (console output is collected in the second
component). -/
def get_fuel_data (resp : HttpResponse) : Option String × List String :=
  if resp.status_code ≠ 200 then
    (none, ["Response code " ++ toString resp.status_code ++ " from " ++ URL])
  else
    (some resp.content, [])

/-- `FuelPrice.get_fuel_prices()`: fetch, return `[]` on falsy data
(`None` or empty body), else parse.  The parse step is abstracted by
`parseFn` so that its non-invocation is expressible. -/
def get_fuel_prices (resp : HttpResponse)
    (parseFn : String → Except PyErr (List Dict)) :
    Except PyErr (List Dict) × List String :=
  match get_fuel_data resp with
  | (none, out) => (.ok [], out)
  | (some data, out) =>
    if data.isEmpty then (.ok [], out) else (parseFn data, out)

/-! ### Schema and specification-side model functions -/

/-- A schema-conforming child of an `item`: an element whose first child is a
text node (`<type>Gasohol 95</type>` and the like). -/
def goodChild : Node → Bool
  | .element _ (.text _ :: _) => true
  | _ => false

/-- A schema-conforming `item` element: all child nodes are schema children
(in particular, no whitespace text between them). -/
def goodItem : Node → Bool
  | .element _ cs => cs.all goodChild
  | .text _ => false

/-- A document matching the expected schema: an `update_date` element whose
first child is text, and every `item` element well-formed. -/
def schemaOk (doc : Node) : Bool :=
  (match (getElems "update_date" doc).head? with
   | some u =>
     (match u.firstChild with
      | some (.text _) => true
      | _ => false)
   | none => false)
  && (getElems "item" doc).all goodItem

/-- Effect of one schema child on the record: skip images, else store the
text under the tag. -/
def addChild (d : Dict) (c : Node) : Dict :=
  match c with
  | .element tg (.text s :: _) =>
    if tg = "image" ∨ tg = "image2" then d else dictSet d tg (some s)
  | _ => d

/-- The successful outcome of `cleanupType`. -/
def cleanModel (d : Dict) : Dict :=
  match dictGet d "type" with
  | some (some s) => dictSet d "type" (some (cleanType s))
  | _ => d

/-- The record produced for an item whose parse succeeds. -/
def recordOf (item : Node) : Dict :=
  match parseItem item with
  | .ok d => d
  | .error _ => []

/-- The value that line 71, `cls._publication_date = elements[0].firstChild.nodeValue`,
stores: `none` when control never reaches the assignment (no `update_date`
element, or `firstChild` is `None` so reading `.nodeValue` raises first),
`some v` when the assignment executes and stores `v`. -/
def extractDate (doc : Node) : Option (Option String) :=
  match (getElems "update_date" doc).head? with
  | none => none
  | some upd =>
    match upd.firstChild with
    | none => none
    | some fc => some fc.nodeValue

/-- The `_publication_date` state after a sequence of `parse_data` calls. -/
def runParses (st : Option String) (docs : List Node) : Option String :=
  docs.foldl (fun s d => (parse_data s d).1) st

/-- Specification-side recorder: the value stored by the last call that
reached the date assignment, starting from `st`. -/
def lastExtract (st : Option String) (docs : List Node) : Option String :=
  docs.foldl (fun s d => match extractDate d with | none => s | some v => v) st

/-- Values in a dictionary are all strings (no Python `None`). -/
def NoneFree (d : Dict) : Prop := ∀ p ∈ d, (Prod.snd p).isSome = true

/-! ### Concrete documents for witnesses and counterexamples -/

/-- Schema document with one item carrying both brand markers. -/
def docW1 : Node :=
  .element "root"
    [.element "update_date" [.text "25/10/2022"],
     .element "item"
       [.element "type" [.text "Gasohol 95 S EVO"],
        .element "today" [.text "35.00"]]]

/-- Schema document with two items, checking count and order. -/
def docW3 : Node :=
  .element "root"
    [.element "update_date" [.text "3/10/2022"],
     .element "item" [.element "type" [.text "Diesel"]],
     .element "item" [.element "type" [.text "Gasohol E85"]]]

/-- Schema document whose item has an `image` child to be dropped. -/
def docW4 : Node :=
  .element "root"
    [.element "update_date" [.text "4/10/2022"],
     .element "item"
       [.element "type" [.text "Gasohol 91 S"],
        .element "today" [.text "34.00"],
        .element "image" [.text "http://img"]]]

/-- Well-formed document with no `update_date` element anywhere. -/
def docW5 : Node :=
  .element "root" [.element "item" [.element "type" [.text "Diesel"]]]

/-- Document whose item has a `type` child with no text content. -/
def docC6 : Node :=
  .element "root"
    [.element "update_date" [.text "6/10/2022"],
     .element "item" [.element "type" []]]

/-- Minimal successfully parsed document (no items). -/
def docC7 : Node :=
  .element "root" [.element "update_date" [.text "2022-11-01"]]

/-- Document whose parse sets the publication date and then raises in the
item loop (the item's child is a text node, so `.tagName` raises). -/
def docC9 : Node :=
  .element "root"
    [.element "update_date" [.text "2022-12-25"],
     .element "item" [.text "junk"]]

end FuelPrice

namespace FuelPrice

/-! ### Helper lemmas: ASCII case mapping -/

theorem isValidChar_of_le (n : Nat) (h : n ≤ 200) : n.isValidChar := by
  unfold Nat.isValidChar
  omega

theorem toNat_ofNat_valid (n : Nat) (h : n.isValidChar) : (Char.ofNat n).toNat = n := by
  simp [Char.ofNat, h, Char.ofNatAux, Char.toNat, UInt32.toNat]

theorem lowA_lowA (c : Char) : lowA (lowA c) = lowA c := by
  unfold lowA
  split
  case isTrue h =>
    have hv : (c.toNat + 32).isValidChar := isValidChar_of_le _ (by omega)
    rw [toNat_ofNat_valid _ hv]
    rw [if_neg (by omega)]
  case isFalse h => rfl

theorem upA_upA (c : Char) : upA (upA c) = upA c := by
  unfold upA
  split
  case isTrue h =>
    have hv : (c.toNat - 32).isValidChar := isValidChar_of_le _ (by omega)
    rw [toNat_ofNat_valid _ hv]
    rw [if_neg (by omega)]
  case isFalse h => rfl

theorem isCasedA_lowA (c : Char) : isCasedA (lowA c) = isCasedA c := by
  unfold lowA
  split
  case isTrue h =>
    have hv : (c.toNat + 32).isValidChar := isValidChar_of_le _ (by omega)
    simp only [isCasedA, toNat_ofNat_valid _ hv, decide_eq_decide]
    omega
  case isFalse h => rfl

theorem isCasedA_upA (c : Char) : isCasedA (upA c) = isCasedA c := by
  unfold upA
  split
  case isTrue h =>
    have hv : (c.toNat - 32).isValidChar := isValidChar_of_le _ (by omega)
    simp only [isCasedA, toNat_ofNat_valid _ hv, decide_eq_decide]
    omega
  case isFalse h => rfl

theorem titleAux_idem (l : List Char) : ∀ b, titleAux b (titleAux b l) = titleAux b l := by
  induction l with
  | nil => intro b; rfl
  | cons c cs ih =>
    intro b
    cases b with
    | false =>
      simp only [titleAux, Bool.false_eq_true, if_false, isCasedA_upA, upA_upA]
      rw [ih]
    | true =>
      simp only [titleAux, if_true, isCasedA_lowA, lowA_lowA]
      rw [ih]

theorem pyTitle_idem (l : List Char) : pyTitle (pyTitle l) = pyTitle l :=
  titleAux_idem l false

/-! ### Helper lemmas: replacement scan -/

theorem replFuel_nil (old new : List Char) (k : Nat) : replFuel old new k [] = [] := by
  cases k <;> rfl

theorem replFuel_eq_self (old new : List Char) (s : List Char)
    (h : hasOccur old s = false) : ∀ k, replFuel old new k s = s := by
  induction s with
  | nil => intro k; exact replFuel_nil old new k
  | cons c cs ih =>
    intro k
    unfold hasOccur at h
    rw [Bool.or_eq_false_iff] at h
    cases k with
    | zero => rfl
    | succ k =>
      unfold replFuel
      rw [if_neg (by simp [h.1])]
      rw [ih h.2 k]

theorem pyReplace_eq_self (old new s : List Char) (h : hasOccur old s = false) :
    pyReplace old new s = s :=
  replFuel_eq_self old new s h s.length

theorem replFuel_fuel_irrelevant (old new : List Char) (hne : old ≠ []) :
    ∀ (k1 : Nat) (s : List Char) (k2 : Nat), s.length ≤ k1 → s.length ≤ k2 →
      replFuel old new k1 s = replFuel old new k2 s := by
  intro k1
  induction k1 with
  | zero =>
    intro s k2 h1 _
    have : s = [] := List.eq_nil_of_length_eq_zero (Nat.le_zero.mp h1)
    subst this
    rw [replFuel_nil, replFuel_nil]
  | succ k1 ih =>
    intro s k2 h1 h2
    cases s with
    | nil => rw [replFuel_nil, replFuel_nil]
    | cons c cs =>
      cases k2 with
      | zero => simp at h2
      | succ k2 =>
        unfold replFuel
        by_cases hp : old.isPrefixOf (c :: cs)
        · rw [if_pos hp, if_pos hp]
          have hlen : old.length ≤ (c :: cs).length :=
            (List.isPrefixOf_iff_prefix.mp hp).length_le
          have hone : 1 ≤ old.length := by
            cases old with
            | nil => exact absurd rfl hne
            | cons _ _ => simp
          have hdrop : ((c :: cs).drop old.length).length ≤ k1 := by
            simp only [List.length_drop]
            simp only [List.length_cons] at h1 ⊢
            omega
          have hdrop2 : ((c :: cs).drop old.length).length ≤ k2 := by
            simp only [List.length_drop]
            simp only [List.length_cons] at h2 ⊢
            omega
          rw [ih _ k2 hdrop hdrop2]
        · rw [if_neg hp, if_neg hp]
          have : cs.length ≤ k1 := by simp at h1; omega
          have h2' : cs.length ≤ k2 := by simp at h2; omega
          rw [ih cs k2 this h2']

theorem stripTrailS_eq_self (s : List Char) (h : sSuffix.isSuffixOf s = false) :
    stripTrailS s = s := by
  simp [stripTrailS, h]

end FuelPrice

namespace FuelPrice

/-! ### Helper lemmas: dictionaries -/

theorem dictGet_dictSet_self (d : Dict) (k : String) (v : Option String) :
    dictGet (dictSet d k v) k = some v := by
  induction d with
  | nil => simp [dictSet, dictGet]
  | cons p d ih =>
    obtain ⟨k0, v0⟩ := p
    by_cases h0 : k0 = k
    · simp [dictSet, dictGet, h0]
    · simp [dictSet, dictGet, h0, ih]

theorem dictGet_dictSet_ne (d : Dict) {k k' : String} (h : k' ≠ k) (v : Option String) :
    dictGet (dictSet d k v) k' = dictGet d k' := by
  induction d with
  | nil => simp [dictSet, dictGet, Ne.symm h]
  | cons p d ih =>
    obtain ⟨k0, v0⟩ := p
    by_cases h0 : k0 = k
    · subst h0
      simp [dictSet, dictGet, Ne.symm h]
    · by_cases h1 : k0 = k'
      · simp [dictSet, dictGet, h0, h1, h, Ne.symm h]
      · simp [dictSet, dictGet, h0, h1, ih]

theorem mem_dictKeys_dictSet (d : Dict) (k : String) (v : Option String) (k' : String) :
    k' ∈ dictKeys (dictSet d k v) ↔ k' ∈ dictKeys d ∨ k' = k := by
  induction d with
  | nil => simp [dictSet, dictKeys]
  | cons p d ih =>
    obtain ⟨k0, v0⟩ := p
    by_cases h0 : k0 = k
    · subst h0
      simp only [dictSet, if_pos rfl, dictKeys, List.mem_cons]
      tauto
    · simp only [dictSet, if_neg h0, dictKeys, List.mem_cons, ih]
      tauto

theorem mem_dictKeys_iff (d : Dict) (k : String) :
    k ∈ dictKeys d ↔ ∃ v, dictGet d k = some v := by
  induction d with
  | nil => simp [dictKeys, dictGet]
  | cons p d ih =>
    obtain ⟨k0, v0⟩ := p
    by_cases h0 : k0 = k
    · subst h0
      simp [dictKeys, dictGet]
    · simp [dictKeys, dictGet, h0, Ne.symm h0, ih]

theorem dictGet_mem (d : Dict) (k : String) (v : Option String)
    (h : dictGet d k = some v) : (k, v) ∈ d := by
  induction d with
  | nil => simp [dictGet] at h
  | cons p d ih =>
    obtain ⟨k0, v0⟩ := p
    by_cases h0 : k0 = k
    · subst h0
      simp [dictGet] at h
      simp [h]
    · simp [dictGet, h0] at h
      exact List.mem_cons_of_mem _ (ih h)

theorem noneFree_dictSet (d : Dict) (k : String) (v : Option String)
    (hd : NoneFree d) (hv : v.isSome = true) : NoneFree (dictSet d k v) := by
  induction d with
  | nil =>
    intro p hp
    simp [dictSet] at hp
    simp [hp, hv]
  | cons q d ih =>
    obtain ⟨k0, v0⟩ := q
    by_cases h0 : k0 = k
    · intro p hp
      simp only [dictSet, if_pos h0] at hp
      rcases List.mem_cons.mp hp with hp | hp
      · simp [hp, hv]
      · exact hd p (List.mem_cons_of_mem _ hp)
    · intro p hp
      simp only [dictSet, if_neg h0] at hp
      rcases List.mem_cons.mp hp with hp | hp
      · exact hd p (by simp [hp])
      · have hd' : NoneFree d := fun q hq => hd q (List.mem_cons_of_mem _ hq)
        exact ih hd' p hp

end FuelPrice

namespace FuelPrice

/-! ### Helper lemmas: the child loop -/

theorem goodChild_shape (c : Node) (h : goodChild c = true) :
    ∃ tg s rest, c = Node.element tg (Node.text s :: rest) := by
  cases c with
  | text d => simp [goodChild] at h
  | element tg cs =>
    cases cs with
    | nil => simp [goodChild] at h
    | cons c0 rest =>
      cases c0 with
      | text s => exact ⟨tg, s, rest, rfl⟩
      | element t2 cs2 => simp [goodChild] at h

theorem foldChildren_append_of_good (cs1 : List Node) (rest : List Node) (d : Dict)
    (h : ∀ c ∈ cs1, goodChild c = true) :
    foldChildren d (cs1 ++ rest) = foldChildren (cs1.foldl addChild d) rest := by
  induction cs1 generalizing d with
  | nil => rfl
  | cons c cs ih =>
    obtain ⟨tg, s, r, rfl⟩ := goodChild_shape c (h c (by simp))
    have hcs : ∀ c ∈ cs, goodChild c = true := fun c hc => h c (by simp [hc])
    by_cases himg : tg = "image" ∨ tg = "image2"
    · simp only [List.cons_append, foldChildren, parseChild, if_pos himg, List.foldl_cons,
        addChild]
      exact ih d hcs
    · simp only [List.cons_append, foldChildren, parseChild, if_neg himg, List.head?,
        Node.nodeValue, List.foldl_cons, addChild, if_neg himg]
      exact ih _ hcs

theorem foldChildren_eq_of_good (cs : List Node) (d : Dict)
    (h : ∀ c ∈ cs, goodChild c = true) :
    foldChildren d cs = .ok (cs.foldl addChild d) := by
  have := foldChildren_append_of_good cs [] d h
  simpa [foldChildren] using this

theorem mem_dictKeys_foldl_addChild (cs : List Node) (d : Dict)
    (h : ∀ c ∈ cs, goodChild c = true) (k : String) :
    k ∈ dictKeys (cs.foldl addChild d) ↔
      k ∈ dictKeys d ∨ (¬(k = "image" ∨ k = "image2") ∧ ∃ c ∈ cs, c.tag? = some k) := by
  induction cs generalizing d with
  | nil => simp
  | cons c cs ih =>
    obtain ⟨tg, s, r, rfl⟩ := goodChild_shape c (h c (by simp))
    have hcs : ∀ c ∈ cs, goodChild c = true := fun c hc => h c (by simp [hc])
    rw [List.foldl_cons, ih _ hcs]
    by_cases himg : tg = "image" ∨ tg = "image2"
    · simp only [addChild, if_pos himg, List.mem_cons, Node.tag?]
      constructor
      · rintro (hk | ⟨hn, c, hc, htag⟩)
        · exact Or.inl hk
        · exact Or.inr ⟨hn, c, Or.inr hc, htag⟩
      · rintro (hk | ⟨hn, c, (rfl | hc), htag⟩)
        · exact Or.inl hk
        · simp only [Node.tag?, Option.some.injEq] at htag
          subst htag
          exact absurd himg hn
        · exact Or.inr ⟨hn, c, hc, htag⟩
    · simp only [addChild, if_neg himg, mem_dictKeys_dictSet, List.mem_cons]
      constructor
      · rintro ((hk | rfl) | ⟨hn, c, hc, htag⟩)
        · exact Or.inl hk
        · exact Or.inr ⟨himg, _, Or.inl rfl, rfl⟩
        · exact Or.inr ⟨hn, c, Or.inr hc, htag⟩
      · rintro (hk | ⟨hn, c, (rfl | hc), htag⟩)
        · exact Or.inl (Or.inl hk)
        · simp only [Node.tag?, Option.some.injEq] at htag
          subst htag
          exact Or.inl (Or.inr rfl)
        · exact Or.inr ⟨hn, c, hc, htag⟩

theorem noneFree_foldl_addChild (cs : List Node) (d : Dict)
    (hd : NoneFree d) : NoneFree (cs.foldl addChild d) := by
  induction cs generalizing d with
  | nil => exact hd
  | cons c cs ih =>
    rw [List.foldl_cons]
    apply ih
    cases c with
    | text s => exact hd
    | element tg ccs =>
      cases ccs with
      | nil => exact hd
      | cons c0 r =>
        cases c0 with
        | element t2 cs2 => exact hd
        | text s =>
          by_cases himg : tg = "image" ∨ tg = "image2"
          · simpa [addChild, himg] using hd
          · simp only [addChild, if_neg himg]
            exact noneFree_dictSet _ _ _ hd rfl

end FuelPrice

namespace FuelPrice

/-! ### Helper lemmas: type cleanup and item loop -/

theorem cleanupType_eq (d : Dict) (hd : NoneFree d) :
    cleanupType d = .ok (cleanModel d) := by
  unfold cleanupType cleanModel
  cases hg : dictGet d "type" with
  | none => rfl
  | some v =>
    cases v with
    | none =>
      have := hd _ (dictGet_mem d "type" none hg)
      simp at this
    | some s => rfl

theorem mem_dictKeys_cleanModel (d : Dict) (k : String) :
    k ∈ dictKeys (cleanModel d) ↔ k ∈ dictKeys d := by
  unfold cleanModel
  cases hg : dictGet d "type" with
  | none => rfl
  | some v =>
    cases v with
    | none => rfl
    | some s =>
      rw [mem_dictKeys_dictSet]
      constructor
      · rintro (hk | rfl)
        · exact hk
        · exact (mem_dictKeys_iff d _).mpr ⟨some s, hg⟩
      · exact Or.inl

theorem dictGet_cleanModel_ne (d : Dict) {k : String} (h : k ≠ "type") :
    dictGet (cleanModel d) k = dictGet d k := by
  unfold cleanModel
  cases hg : dictGet d "type" with
  | none => rfl
  | some v =>
    cases v with
    | none => rfl
    | some s => exact dictGet_dictSet_ne d h _

theorem dictGet_cleanModel_type (d : Dict) (hd : NoneFree d) (v : Option String)
    (h : dictGet (cleanModel d) "type" = some v) :
    ∃ s, dictGet d "type" = some (some s) ∧ v = some (cleanType s) := by
  unfold cleanModel at h
  cases hg : dictGet d "type" with
  | none => rw [hg] at h; rw [hg] at h; exact absurd h (by simp)
  | some w =>
    cases w with
    | none =>
      have := hd _ (dictGet_mem d "type" none hg)
      simp at this
    | some s =>
      rw [hg] at h
      rw [dictGet_dictSet_self] at h
      exact ⟨s, rfl, by injection h with h; exact h.symm⟩

theorem parseItem_eq_of_good (it : Node) (h : goodItem it = true) :
    parseItem it = .ok (cleanModel (it.childNodes.foldl addChild [])) := by
  cases it with
  | text s => simp [goodItem] at h
  | element tg cs =>
    simp only [goodItem, List.all_eq_true] at h
    unfold parseItem
    rw [show (Node.element tg cs).childNodes = cs from rfl]
    rw [foldChildren_eq_of_good cs [] h]
    exact cleanupType_eq _ (noneFree_foldl_addChild cs [] (by intro p hp; simp at hp))

theorem recordOf_eq_of_good (it : Node) (h : goodItem it = true) :
    recordOf it = cleanModel (it.childNodes.foldl addChild []) := by
  unfold recordOf
  rw [parseItem_eq_of_good it h]

theorem parseItems_eq_of_good (its : List Node) (h : ∀ it ∈ its, goodItem it = true) :
    parseItems its = .ok (its.map recordOf) := by
  induction its with
  | nil => rfl
  | cons it its ih =>
    have hit := parseItem_eq_of_good it (h it (by simp))
    unfold parseItems
    rw [hit, ih (fun x hx => h x (by simp [hx]))]
    rw [List.map_cons, recordOf_eq_of_good it (h it (by simp))]

theorem parse_data_of_schema (st : Option String) (doc : Node) (h : schemaOk doc = true) :
    (parse_data st doc).2 = .ok ((getElems "item" doc).map recordOf) := by
  unfold schemaOk at h
  rw [Bool.and_eq_true] at h
  obtain ⟨h1, h2⟩ := h
  rw [List.all_eq_true] at h2
  unfold parse_data
  cases hu : (getElems "update_date" doc).head? with
  | none => rw [hu] at h1; simp at h1
  | some u =>
    rw [hu] at h1
    dsimp only at h1 ⊢
    cases hf : u.firstChild with
    | none => rw [hf] at h1; simp at h1
    | some fc =>
      rw [hf] at h1
      cases fc with
      | element t2 cs2 => simp at h1
      | text s =>
        dsimp only
        exact parseItems_eq_of_good _ h2

/-! ### Helper lemmas: inversion of a successful parse -/

theorem parseItems_ok_mem (its : List Node) (fuels : List Dict)
    (h : parseItems its = .ok fuels) :
    ∀ r ∈ fuels, ∃ it ∈ its, parseItem it = .ok r := by
  induction its generalizing fuels with
  | nil =>
    intro r hr
    simp only [parseItems] at h
    injection h with h
    subst h
    simp at hr
  | cons it its ih =>
    intro r hr
    unfold parseItems at h
    cases hi : parseItem it with
    | error e => rw [hi] at h; exact absurd h (by simp)
    | ok d =>
      rw [hi] at h
      cases hs : parseItems its with
      | error e => rw [hs] at h; exact absurd h (by simp)
      | ok ds =>
        rw [hs] at h
        injection h with h
        subst h
        rcases List.mem_cons.mp hr with rfl | hr
        · exact ⟨it, by simp, hi⟩
        · obtain ⟨it', hit', hok⟩ := ih ds hs r hr
          exact ⟨it', by simp [hit'], hok⟩

theorem parseItem_ok_inv (it : Node) (r : Dict) (h : parseItem it = .ok r) :
    ∃ d, foldChildren [] it.childNodes = .ok d ∧ cleanupType d = .ok r := by
  unfold parseItem at h
  cases hf : foldChildren [] it.childNodes with
  | error e => rw [hf] at h; exact absurd h (by simp)
  | ok d => rw [hf] at h; exact ⟨d, rfl, h⟩

theorem cleanupType_ok_type (d r : Dict) (h : cleanupType d = .ok r)
    (v : Option String) (hv : dictGet r "type" = some v) :
    ∃ s, dictGet d "type" = some (some s) ∧ v = some (cleanType s) := by
  unfold cleanupType at h
  cases hg : dictGet d "type" with
  | none =>
    rw [hg] at h
    injection h with h
    subst h
    rw [hg] at hv
    exact absurd hv (by simp)
  | some w =>
    cases w with
    | none => rw [hg] at h; exact absurd h (by simp)
    | some s =>
      rw [hg] at h
      injection h with h
      subst h
      rw [dictGet_dictSet_self] at hv
      injection hv with hv
      exact ⟨s, rfl, hv.symm⟩

theorem foldChildren_ok_get (cs : List Node) (d d' : Dict)
    (h : foldChildren d cs = .ok d') (k : String) (v : Option String)
    (hv : dictGet d' k = some v) :
    dictGet d k = some v ∨
      (¬(k = "image" ∨ k = "image2") ∧
        ∃ c ∈ cs, c.tag? = some k ∧ ∃ fc, c.firstChild = some fc ∧ v = fc.nodeValue) := by
  induction cs generalizing d with
  | nil =>
    simp only [foldChildren] at h
    injection h with h
    subst h
    exact Or.inl hv
  | cons c cs ih =>
    unfold foldChildren at h
    cases hp : parseChild d c with
    | error e => rw [hp] at h; exact absurd h (by simp)
    | ok d1 =>
      rw [hp] at h
      rcases ih d1 h with h1 | ⟨hn, c', hc', htag, fc, hfc, hval⟩
      · cases c with
        | text s => simp [parseChild] at hp
        | element tg ccs =>
          simp only [parseChild] at hp
          by_cases himg : tg = "image" ∨ tg = "image2"
          · rw [if_pos himg] at hp
            injection hp with hp
            subst hp
            exact Or.inl h1
          · rw [if_neg himg] at hp
            cases hh : ccs.head? with
            | none => rw [hh] at hp; exact absurd hp (by simp)
            | some fc =>
              rw [hh] at hp
              injection hp with hp
              subst hp
              by_cases hk : k = tg
              · subst hk
                rw [dictGet_dictSet_self] at h1
                injection h1 with h1
                refine Or.inr ⟨himg, Node.element k ccs, by simp, rfl, fc, ?_, h1.symm⟩
                show ccs.head? = some fc
                exact hh
              · rw [dictGet_dictSet_ne d hk] at h1
                exact Or.inl h1
      · exact Or.inr ⟨hn, c', by simp [hc'], htag, fc, hfc, hval⟩

/-! ### Helper lemmas: publication-date state -/

theorem parse_data_state (st : Option String) (doc : Node) :
    (parse_data st doc).1 =
      (match extractDate doc with | none => st | some v => v) := by
  unfold parse_data extractDate
  cases (getElems "update_date" doc).head? with
  | none => rfl
  | some upd =>
    dsimp only
    cases upd.firstChild with
    | none => rfl
    | some fc => rfl

theorem runParses_eq_lastExtract (docs : List Node) :
    ∀ st, runParses st docs = lastExtract st docs := by
  induction docs with
  | nil => intro st; rfl
  | cons d ds ih =>
    intro st
    unfold runParses lastExtract
    rw [List.foldl_cons, List.foldl_cons]
    rw [parse_data_state st d]
    exact ih _

end FuelPrice

namespace FuelPrice

/-! ### The claims -/

/-- Claim C1: for every parsed record that contains a `type` field, the
normalized type equals the result of applying, in this order, to the source
text: replace every occurrence of `" S "` with a single space, remove every
occurrence of `" EVO"`, strip the two-character suffix `" S"` if the string
ends with it, then title-case the result (`cleanType` is exactly that
pipeline); in particular `"Gasohol 91 S"` normalizes to `"Gasohol 91"`,
`"Diesel EVO"` to `"Diesel"`, and `"gasohol e20"` to `"Gasohol E20"`. -/
theorem type_field_normalized (st : Option String) (doc : Node) (fuels : List Dict)
    (h : (parse_data st doc).2 = Except.ok fuels) :
    (∀ r ∈ fuels, ∀ v, dictGet r "type" = some v →
      ∃ s, v = some (cleanType s) ∧
        ∃ it ∈ getElems "item" doc, ∃ c ∈ it.childNodes,
          c.tag? = some "type" ∧ c.firstText? = some s) ∧
    cleanType "Gasohol 91 S" = "Gasohol 91" ∧
    cleanType "Diesel EVO" = "Diesel" ∧
    cleanType "gasohol e20" = "Gasohol E20" := by
  refine ⟨?_, by decide, by decide, by decide⟩
  intro r hr v hv
  have hitems : parseItems (getElems "item" doc) = Except.ok fuels := by
    unfold parse_data at h
    cases hu : (getElems "update_date" doc).head? with
    | none => rw [hu] at h; exact absurd h (by simp)
    | some u =>
      rw [hu] at h
      dsimp only at h
      cases hf : u.firstChild with
      | none => rw [hf] at h; exact absurd h (by simp)
      | some fc => rw [hf] at h; exact h
  obtain ⟨it, hit, hok⟩ := parseItems_ok_mem _ _ hitems r hr
  obtain ⟨d, hfold, hclean⟩ := parseItem_ok_inv it r hok
  obtain ⟨s, hd, hveq⟩ := cleanupType_ok_type d r hclean v hv
  rcases foldChildren_ok_get it.childNodes [] d hfold "type" (some s) hd with
    h0 | ⟨hn, c, hc, htag, fc, hfc, hval⟩
  · simp [dictGet] at h0
  · cases fc with
    | element t2 cs2 => simp [Node.nodeValue] at hval
    | text s2 =>
      simp only [Node.nodeValue, Option.some.injEq] at hval
      subst hval
      cases c with
      | text t => simp [Node.tag?] at htag
      | element ctg ccs =>
        simp only [Node.tag?, Option.some.injEq] at htag
        subst htag
        simp only [Node.firstChild] at hfc
        cases ccs with
        | nil => simp at hfc
        | cons c0 rest =>
          simp only [List.head?_cons, Option.some.injEq] at hfc
          subst hfc
          exact ⟨s, hveq, it, hit, _, hc, rfl, rfl⟩

/-- Claim C1 witness: the theorem applied to a concrete schema document whose
item carries `<type>Gasohol 95 S EVO</type>`. -/
theorem type_field_normalized_witness :
    (parse_data none docW1).2 =
      Except.ok [[("type", some "Gasohol 95"), ("today", some "35.00")]] ∧
    ((∀ r ∈ [[("type", some "Gasohol 95"), ("today", some "35.00")]], ∀ v,
        dictGet r "type" = some v →
        ∃ s, v = some (cleanType s) ∧
          ∃ it ∈ getElems "item" docW1, ∃ c ∈ it.childNodes,
            c.tag? = some "type" ∧ c.firstText? = some s) ∧
      cleanType "Gasohol 91 S" = "Gasohol 91" ∧
      cleanType "Diesel EVO" = "Diesel" ∧
      cleanType "gasohol e20" = "Gasohol E20") :=
  ⟨rfl, type_field_normalized none docW1 _ rfl⟩

/-- Claim C2 counterexample: the cleanup rule is not idempotent.  The input
`"a s"` normalizes to `"A S"` (title-casing capitalizes the lone trailing
`s`), and renormalizing strips the now-uppercase `" S"` suffix, giving
`"A"`. -/
theorem cleanup_not_idempotent :
    cleanType (cleanType "a s") ≠ cleanType "a s" ∧
    cleanType "a s" = "A S" ∧ cleanType (cleanType "a s") = "A" := by
  refine ⟨by decide, by decide, by decide⟩

/-- Claim C2 amended: the cleanup rule is idempotent on every input whose
normalized form contains no `" S "` and no `" EVO"` substring and does not
end with `" S"` (every actual fuel grade name satisfies this; the general
statement fails, see `cleanup_not_idempotent`). -/
theorem cleanup_idempotent_of_stable (s : String)
    (h1 : hasOccur sSpace (cleanType s).data = false)
    (h2 : hasOccur evo (cleanType s).data = false)
    (h3 : sSuffix.isSuffixOf (cleanType s).data = false) :
    cleanType (cleanType s) = cleanType s := by
  have hdata : (cleanType s).data = cleanList s.data := rfl
  rw [hdata] at h1 h2 h3
  show String.mk (cleanList (cleanType s).data) = cleanType s
  rw [hdata]
  have : cleanList (cleanList s.data) = cleanList s.data := by
    show pyTitle (stripTrailS (pyReplace evo []
      (pyReplace sSpace [' '] (cleanList s.data)))) = cleanList s.data
    rw [pyReplace_eq_self _ _ _ h1, pyReplace_eq_self _ _ _ h2, stripTrailS_eq_self _ h3]
    show pyTitle (pyTitle (stripTrailS (pyReplace evo []
      (pyReplace sSpace [' '] s.data)))) = cleanList s.data
    exact pyTitle_idem _
  rw [this]
  rfl

/-- Claim C2 amended witness: the amended idempotence theorem applied to the
concrete input `"gasohol e20"`, whose normalized form `"Gasohol E20"` is
stable. -/
theorem cleanup_idempotent_of_stable_witness :
    (hasOccur sSpace (cleanType "gasohol e20").data = false ∧
     hasOccur evo (cleanType "gasohol e20").data = false ∧
     sSuffix.isSuffixOf (cleanType "gasohol e20").data = false) ∧
    cleanType (cleanType "gasohol e20") = cleanType "gasohol e20" :=
  ⟨⟨by decide, by decide, by decide⟩,
    cleanup_idempotent_of_stable "gasohol e20" (by decide) (by decide) (by decide)⟩

end FuelPrice

namespace FuelPrice

/-- Claim C3: for every well-formed XML input matching the expected schema,
parsing returns exactly one record per `item` element (`recordOf` that item),
in the document order in which `getElems` lists them; in particular the
record count equals the `item` count. -/
theorem parse_count_and_order (st : Option String) (doc : Node)
    (h : schemaOk doc = true) :
    (parse_data st doc).2 = Except.ok ((getElems "item" doc).map recordOf) ∧
    ∀ fuels, (parse_data st doc).2 = Except.ok fuels →
      fuels.length = (getElems "item" doc).length := by
  have h1 := parse_data_of_schema st doc h
  refine ⟨h1, ?_⟩
  intro fuels hf
  rw [h1] at hf
  injection hf with hf
  subst hf
  exact List.length_map _ _

/-- Claim C3 witness: the theorem applied to a concrete two-item schema
document. -/
theorem parse_count_and_order_witness :
    schemaOk docW3 = true ∧
    ((parse_data none docW3).2 = Except.ok ((getElems "item" docW3).map recordOf) ∧
     ∀ fuels, (parse_data none docW3).2 = Except.ok fuels →
       fuels.length = (getElems "item" docW3).length) :=
  ⟨by decide, parse_count_and_order none docW3 (by decide)⟩

/-- Claim C4: for every parsed record of a schema document, the record's key
set is exactly the tag names of the item's element children minus `image`
and `image2` (which never appear), and every retained field's value is the
source element's text exactly, except `type`, which is normalized with
`cleanType`. -/
theorem record_fields_exact (st : Option String) (doc : Node)
    (h : schemaOk doc = true) :
    (parse_data st doc).2 = Except.ok ((getElems "item" doc).map recordOf) ∧
    ∀ it ∈ getElems "item" doc,
      (∀ k, k ∈ dictKeys (recordOf it) ↔
        (¬(k = "image" ∨ k = "image2") ∧ ∃ c ∈ it.childNodes, c.tag? = some k)) ∧
      (∀ k v, dictGet (recordOf it) k = some v →
        ∃ c ∈ it.childNodes, c.tag? = some k ∧ ∃ s, c.firstText? = some s ∧
          v = some (if k = "type" then cleanType s else s)) := by
  refine ⟨parse_data_of_schema st doc h, ?_⟩
  intro it hit
  have hgood : goodItem it = true := by
    unfold schemaOk at h
    rw [Bool.and_eq_true] at h
    exact (List.all_eq_true.mp h.2) it hit
  obtain ⟨tg, cs, rfl⟩ : ∃ tg cs, it = Node.element tg cs := by
    cases it with
    | text s => simp [goodItem] at hgood
    | element tg cs => exact ⟨tg, cs, rfl⟩
  have hcs : ∀ c ∈ cs, goodChild c = true := by
    simpa [goodItem, List.all_eq_true] using hgood
  have hchild : (Node.element tg cs).childNodes = cs := rfl
  have hrec : recordOf (Node.element tg cs) = cleanModel (cs.foldl addChild []) := by
    rw [recordOf_eq_of_good _ hgood, hchild]
  have hnf : NoneFree (cs.foldl addChild []) :=
    noneFree_foldl_addChild cs [] (by intro p hp; simp at hp)
  have hfold : foldChildren [] cs = .ok (cs.foldl addChild []) :=
    foldChildren_eq_of_good cs [] hcs
  constructor
  · intro k
    rw [hrec, mem_dictKeys_cleanModel, mem_dictKeys_foldl_addChild cs [] hcs k, hchild]
    simp [dictKeys]
  · intro k v hv
    rw [hrec] at hv
    rw [hchild]
    by_cases hk : k = "type"
    · subst hk
      obtain ⟨s0, hget, hveq⟩ := dictGet_cleanModel_type _ hnf v hv
      rcases foldChildren_ok_get cs [] _ hfold "type" (some s0) hget with
        h0 | ⟨hn, c, hc, htag, fc, hfc, hval⟩
      · simp [dictGet] at h0
      · obtain ⟨ctg, s1, rest, rfl⟩ := goodChild_shape c (hcs _ hc)
        simp only [Node.tag?, Option.some.injEq] at htag
        subst htag
        simp only [Node.firstChild, List.head?_cons, Option.some.injEq] at hfc
        subst hfc
        simp only [Node.nodeValue, Option.some.injEq] at hval
        subst hval
        exact ⟨_, hc, rfl, s0, rfl, by simp [hveq]⟩
    · rw [dictGet_cleanModel_ne _ hk] at hv
      rcases foldChildren_ok_get cs [] _ hfold k v hv with
        h0 | ⟨hn, c, hc, htag, fc, hfc, hval⟩
      · simp [dictGet] at h0
      · obtain ⟨ctg, s1, rest, rfl⟩ := goodChild_shape c (hcs _ hc)
        simp only [Node.tag?, Option.some.injEq] at htag
        subst htag
        simp only [Node.firstChild, List.head?_cons, Option.some.injEq] at hfc
        subst hfc
        simp only [Node.nodeValue] at hval
        exact ⟨_, hc, rfl, s1, rfl, by simp [hval, hk]⟩

/-- Claim C4 witness: the theorem applied to a concrete schema document whose
item carries an `image` child (dropped from the record). -/
theorem record_fields_exact_witness :
    schemaOk docW4 = true ∧
    ((parse_data none docW4).2 = Except.ok ((getElems "item" docW4).map recordOf) ∧
     ∀ it ∈ getElems "item" docW4,
       (∀ k, k ∈ dictKeys (recordOf it) ↔
         (¬(k = "image" ∨ k = "image2") ∧ ∃ c ∈ it.childNodes, c.tag? = some k)) ∧
       (∀ k v, dictGet (recordOf it) k = some v →
         ∃ c ∈ it.childNodes, c.tag? = some k ∧ ∃ s, c.firstText? = some s ∧
           v = some (if k = "type" then cleanType s else s))) :=
  ⟨by decide, record_fields_exact none docW4 (by decide)⟩

/-- Claim C5: for every well-formed input containing no `update_date`
element, the parse aborts, surfacing the error of `elements[0]` on the empty
element list (Python's `IndexError`; the specification's name for this
failure is `MissingFieldError`), and leaves the stored date unchanged. -/
theorem missing_update_date_fails (st : Option String) (doc : Node)
    (h : getElems "update_date" doc = []) :
    parse_data st doc = (st, Except.error PyErr.indexError) := by
  unfold parse_data
  rw [h]
  rfl

/-- Claim C5 witness: the theorem applied to a concrete document with items
but no `update_date`. -/
theorem missing_update_date_fails_witness :
    getElems "update_date" docW5 = [] ∧
    parse_data none docW5 = (none, Except.error PyErr.indexError) :=
  ⟨rfl, missing_update_date_fails none docW5 rfl⟩

/-- Claim C6 counterexample: on the document `docC6`, whose only item has a
`type` child with no text content, the parse raises `AttributeError`
(reading `.nodeValue` off `firstChild = None`) instead of recording an empty
string for the field as the claim states. -/
theorem empty_child_not_empty_string :
    (parse_data none docC6).2 = Except.error PyErr.attributeError := rfl

/-- Claim C6 amended: for every item one of whose children is a non-image
element with no child nodes (all preceding children being schema-conforming),
parsing the item raises `AttributeError`; the record field is never set and
no empty string is produced. -/
theorem empty_child_raises (tg t : String) (cs1 cs2 : List Node)
    (h1 : ∀ c ∈ cs1, goodChild c = true)
    (h2 : ¬(t = "image" ∨ t = "image2")) :
    parseItem (Node.element tg (cs1 ++ Node.element t [] :: cs2)) =
      Except.error PyErr.attributeError := by
  unfold parseItem
  rw [show (Node.element tg (cs1 ++ Node.element t [] :: cs2)).childNodes
      = cs1 ++ Node.element t [] :: cs2 from rfl]
  rw [foldChildren_append_of_good cs1 _ [] h1]
  simp only [foldChildren, parseChild, if_neg h2]
  rfl

/-- Claim C6 amended witness: the amended theorem applied to a concrete item
with one well-formed child followed by an empty `type` element. -/
theorem empty_child_raises_witness :
    ((∀ c ∈ [Node.element "today" [Node.text "34.00"]], goodChild c = true) ∧
     ¬("type" = "image" ∨ "type" = "image2")) ∧
    parseItem (Node.element "item"
        ([Node.element "today" [Node.text "34.00"]] ++ Node.element "type" [] :: [])) =
      Except.error PyErr.attributeError :=
  ⟨⟨by decide, by decide⟩,
    empty_child_raises "item" "type" [Node.element "today" [Node.text "34.00"]] []
      (by decide) (by decide)⟩

end FuelPrice

namespace FuelPrice

/-- Claim C7 (code bug): parsing is not side-effect free.  On the concrete
document `docC7` the parse succeeds, yet it overwrites the class-level
`_publication_date` (line 71 of the source, flagged by the code's own TODO
as bad design), so `get_date` observes a changed value. -/
theorem parse_mutates_publication_date :
    (parse_data none docC7).1 = some "2022-11-01" ∧
    (parse_data none docC7).2 = Except.ok [] ∧
    get_date (parse_data none docC7).1 ≠ get_date none :=
  ⟨rfl, rfl, by decide⟩

/-- Claim C8: every fetch with a non-200 status prints one diagnostic line
carrying the status code and the URL, and the pipeline yields the empty
record list with no exception (the result is `Except.ok`, built without
calling the parser). -/
theorem non200_yields_empty_and_diagnostic (resp : HttpResponse)
    (parseFn : String → Except PyErr (List Dict)) (h : resp.status_code ≠ 200) :
    get_fuel_prices resp parseFn =
      (Except.ok [],
       ["Response code " ++ toString resp.status_code ++ " from " ++ URL]) := by
  unfold get_fuel_prices get_fuel_data
  rw [if_pos h]

/-- Claim C8 witness: the theorem applied to a concrete 404 response. -/
theorem non200_yields_empty_and_diagnostic_witness :
    (HttpResponse.mk 404 "").status_code ≠ 200 ∧
    get_fuel_prices (HttpResponse.mk 404 "") (fun _ => Except.ok []) =
      (Except.ok [],
       ["Response code " ++ toString (HttpResponse.mk 404 "").status_code ++ " from " ++ URL]) :=
  ⟨by decide, non200_yields_empty_and_diagnostic (HttpResponse.mk 404 "") _ (by decide)⟩

/-- Claim C9 counterexample: on `docC9` the parse stores the publication date
and then raises in the item loop, so after a single parse call that never
succeeded, `get_date` already returns the date instead of `none` as the
claim states. -/
theorem failed_parse_sets_date :
    (parse_data none docC9).2 = Except.error PyErr.attributeError ∧
    get_date (parse_data none docC9).1 = some "2022-12-25" :=
  ⟨rfl, rfl⟩

/-- Claim C9 amended: over every sequence of parse calls starting from the
initial `none`, `get_date` returns the `update_date` value extracted by the
most recent call that reached the date assignment — whether or not that
parse subsequently succeeded — and `none` when no call reached it. -/
theorem publication_date_tracks_extraction (docs : List Node) :
    get_date (runParses none docs) = lastExtract none docs ∧
    get_date (runParses none []) = none :=
  ⟨runParses_eq_lastExtract docs none, rfl⟩

/-- Claim C10: a 200 response with an empty body is treated like a fetch
failure: `get_fuel_prices` returns the empty list and prints nothing, and
the result does not depend on the parser, which is never invoked on the
empty input. -/
theorem empty_body_never_parses (resp : HttpResponse)
    (parseFn : String → Except PyErr (List Dict))
    (h1 : resp.status_code = 200) (h2 : resp.content = "") :
    get_fuel_prices resp parseFn = (Except.ok [], []) ∧
    ∀ g, get_fuel_prices resp parseFn = get_fuel_prices resp g := by
  have key : ∀ f : String → Except PyErr (List Dict),
      get_fuel_prices resp f = (Except.ok [], []) := by
    intro f
    unfold get_fuel_prices get_fuel_data
    rw [if_neg (by simp [h1])]
    dsimp only
    rw [h2]
    rfl
  exact ⟨key parseFn, fun g => (key parseFn).trans (key g).symm⟩

/-- Claim C10 witness: the theorem applied to a concrete empty 200 response
and an always-raising parser. -/
theorem empty_body_never_parses_witness :
    ((HttpResponse.mk 200 "").status_code = 200 ∧ (HttpResponse.mk 200 "").content = "") ∧
    (get_fuel_prices (HttpResponse.mk 200 "") (fun _ => Except.error PyErr.indexError) =
        (Except.ok [], []) ∧
     ∀ g, get_fuel_prices (HttpResponse.mk 200 "") (fun _ => Except.error PyErr.indexError) =
        get_fuel_prices (HttpResponse.mk 200 "") g) :=
  ⟨⟨rfl, rfl⟩, empty_body_never_parses (HttpResponse.mk 200 "") _ rfl rfl⟩

end FuelPrice
